import Mathlib

/-!
Verification development for the gradle-diff change-impact resolver
(src/gradle-diff.py).  The Python source is shallowly embedded: Python
strings are Lean `String`s and the Python operations used by the source
(startswith, endswith, rstrip, len, lexicographic sorting) are modelled
on the underlying character sequence `String.data`; Python sets become
`Finset String`; insertion-ordered dicts become association lists;
fallible paths (uncaught exceptions, `sys.exit`) become `Except`.
-/

namespace GradleDiff

/-! ### Python string primitives -/

/-- Python `s.startswith(pre)`: `pre` is a prefix of the character sequence. -/
def pyStartswith (s pre : String) : Bool :=
  pre.data.isPrefixOf s.data

/-- Python `s.endswith(suf)`: `suf` is a suffix of the character sequence. -/
def pyEndswith (s suf : String) : Bool :=
  suf.data.isSuffixOf s.data

/-- Python `s.rstrip('/')`: drop every trailing `'/'` character. -/
def pyRstripSlash (s : String) : String :=
  ⟨(s.data.reverse.dropWhile (fun c => c = '/')).reverse⟩

/-- Number of trailing `'/'` characters of a string. -/
def trailingSlashCount (s : String) : Nat :=
  (s.data.reverse.takeWhile (fun c => c = '/')).length

/-- Lexicographic comparison of character sequences by code point; this is
exactly how Python compares two `str` values. -/
def lexLe : List Char → List Char → Bool
  | [], _ => true
  | _ :: _, [] => false
  | a :: as, b :: bs => if a < b then true else if b < a then false else lexLe as bs

/-- Python `a <= b` on strings. -/
def pyStrLe (a b : String) : Bool :=
  lexLe a.data b.data

/-- The ordering of Python string comparison, as a proposition. -/
def strle (a b : String) : Prop :=
  pyStrLe a b = true

instance : DecidableRel strle := fun a b => by
  unfold strle
  infer_instance

theorem lexLe_refl (as : List Char) : lexLe as as = true := by
  induction as with
  | nil => rfl
  | cons a as ih => simp [lexLe, ih]

theorem lexLe_total (as bs : List Char) : lexLe as bs = true ∨ lexLe bs as = true := by
  induction as generalizing bs with
  | nil => left; rfl
  | cons a as ih =>
    cases bs with
    | nil => right; rfl
    | cons b bs =>
      rcases lt_trichotomy a b with h | h | h
      · left; simp [lexLe, h]
      · subst h
        rcases ih bs with h' | h' <;> [left; right] <;> simp [lexLe, h', lt_irrefl]
      · right; simp [lexLe, h]

theorem lexLe_trans {as bs cs : List Char} (h₁ : lexLe as bs = true)
    (h₂ : lexLe bs cs = true) : lexLe as cs = true := by
  induction as generalizing bs cs with
  | nil => rfl
  | cons a as ih =>
    cases bs with
    | nil => simp [lexLe] at h₁
    | cons b bs =>
      cases cs with
      | nil => simp [lexLe] at h₂
      | cons c cs =>
        simp only [lexLe] at h₁ h₂ ⊢
        rcases lt_trichotomy a b with hab | hab | hab
        · rcases lt_trichotomy b c with hbc | hbc | hbc
          · simp [lt_trans hab hbc]
          · subst hbc; simp [hab]
          · rw [if_neg (lt_asymm hbc), if_pos hbc] at h₂; exact absurd h₂ (by simp)
        · subst hab
          rw [if_neg (lt_irrefl a), if_neg (lt_irrefl a)] at h₁
          rcases lt_trichotomy a c with hac | hac | hac
          · simp [hac]
          · subst hac
            rw [if_neg (lt_irrefl a), if_neg (lt_irrefl a)] at h₂ ⊢
            exact ih h₁ h₂
          · rw [if_neg (lt_asymm hac), if_pos hac] at h₂; exact absurd h₂ (by simp)
        · rw [if_neg (lt_asymm hab), if_pos hab] at h₁; exact absurd h₁ (by simp)

theorem lexLe_antisymm {as bs : List Char} (h₁ : lexLe as bs = true)
    (h₂ : lexLe bs as = true) : as = bs := by
  induction as generalizing bs with
  | nil =>
    cases bs with
    | nil => rfl
    | cons b bs => simp [lexLe] at h₂
  | cons a as ih =>
    cases bs with
    | nil => simp [lexLe] at h₁
    | cons b bs =>
      simp only [lexLe] at h₁ h₂
      rcases lt_trichotomy a b with hab | hab | hab
      · rw [if_neg (lt_asymm hab), if_pos hab] at h₂; exact absurd h₂ (by simp)
      · subst hab
        rw [if_neg (lt_irrefl a), if_neg (lt_irrefl a)] at h₁ h₂
        exact congrArg (a :: ·) (ih h₁ h₂)
      · rw [if_neg (lt_asymm hab), if_pos hab] at h₁; exact absurd h₁ (by simp)

instance : IsTrans String strle :=
  ⟨fun _ _ _ h₁ h₂ => lexLe_trans h₁ h₂⟩

instance : IsAntisymm String strle :=
  ⟨fun a b h₁ h₂ => String.toList_inj.mp (lexLe_antisymm h₁ h₂)⟩

instance : IsTotal String strle :=
  ⟨fun a b => lexLe_total a.data b.data⟩

instance : IsRefl String strle :=
  ⟨fun a => lexLe_refl a.data⟩

/-! ### Data model (section 3 of the source: project records from the graph
snapshot, change records from git) -/

/-- One record of the JSON graph snapshot: `path`, `dir`, `dependencies`
(the source reads the dependencies key with a `.get` defaulting to the
empty list when the key is absent). -/
structure Project where
  path : String
  dir : String
  dependencies : List String
  deriving DecidableEq

/-- One changed-file record `{"status": ..., "path": ...}`. -/
structure FileInfo where
  status : String
  path : String
  deriving DecidableEq

/-! ### get_hash (src/gradle-diff.py:30-37) -/

/-- Model of the filesystem seen by `get_hash`: maps a path to the raw bytes
of the file, or `none` when `os.path.exists` is false. -/
def FileSystem : Type :=
  String → Option (List Nat)

/-- Embeds `get_hash`: iterate the file list in sorted order, feeding the
bytes of every existing file to the hasher and silently skipping missing
files.  MD5 is a fixed deterministic function of the byte stream fed to
`hasher.update`, so the digest is modelled by that concatenated stream:
two calls return the same hex digest exactly when these streams are equal. -/
def get_hash (fs : FileSystem) (file_list : List String) : List Nat :=
  (file_list.mergeSort pyStrLe).foldl
    (fun acc f =>
      match fs f with
      | some bytes => acc ++ bytes
      | none => acc)
    []

theorem lexLe_bool_total (a b : String) : pyStrLe a b || pyStrLe b a := by
  rcases lexLe_total a.data b.data with h | h <;> simp [pyStrLe, h]

theorem mergeSort_pyStrLe_sorted (l : List String) :
    List.Sorted strle (l.mergeSort pyStrLe) :=
  @List.sorted_mergeSort String pyStrLe
    (fun _ _ _ h₁ h₂ => lexLe_trans h₁ h₂) lexLe_bool_total l

theorem mergeSort_pyStrLe_eq_of_perm {l₁ l₂ : List String} (h : l₁.Perm l₂) :
    l₁.mergeSort pyStrLe = l₂.mergeSort pyStrLe :=
  List.eq_of_perm_of_sorted
    (((l₁.mergeSort_perm pyStrLe).trans h).trans (l₂.mergeSort_perm pyStrLe).symm)
    (mergeSort_pyStrLe_sorted l₁) (mergeSort_pyStrLe_sorted l₂)

theorem get_hash_fold_filter (fs : FileSystem) (l : List String) (acc : List Nat) :
    l.foldl (fun acc f => match fs f with | some bytes => acc ++ bytes | none => acc) acc
      = (l.filter fun f => (fs f).isSome).foldl
          (fun acc f => match fs f with | some bytes => acc ++ bytes | none => acc) acc := by
  induction l generalizing acc with
  | nil => rfl
  | cons x l ih =>
    by_cases hx : (fs x).isSome
    · rcases Option.isSome_iff_exists.mp hx with ⟨b, hb⟩
      simp [List.filter_cons, hx, hb, ih]
    · have hnone : fs x = none := Option.not_isSome_iff_eq_none.mp hx
      simp [List.filter_cons, hx, hnone, ih]

theorem mergeSort_pyStrLe_filter (l : List String) (p : String → Bool) :
    (l.mergeSort pyStrLe).filter p = (l.filter p).mergeSort pyStrLe := by
  refine List.eq_of_perm_of_sorted ?_ ?_ (mergeSort_pyStrLe_sorted _)
  · exact ((l.mergeSort_perm pyStrLe).filter p).trans ((l.filter p).mergeSort_perm pyStrLe).symm
  · exact (mergeSort_pyStrLe_sorted l).filter p

/-! ### Impact Resolver: find_affected_projects (src/gradle-diff.py:108-185) -/

/-- State of the graph snapshot file: nonexistent (`os.path.exists` false),
existing but unreadable or unparseable (`open` or `json.load` raises), or
readable with the given list of project records. -/
inductive GraphFile where
  | missing
  | unreadable
  | content (projects : List Project)
  deriving DecidableEq

/-- The fixed global-trigger path list (src/gradle-diff.py:123-130). -/
def global_triggers : List String :=
  ["gradle/libs.versions.toml", "buildSrc/", "gradle.properties",
   "settings.gradle", "build.gradle", "gradle-diff.gradle"]

/-- Step 2 selection loop (src/gradle-diff.py:145-151): iterate the projects
sorted by raw `dir` length descending (Python `sorted` with `reverse=True` is
stable, as is `mergeSort`), rstrip trailing slashes, skip empty or `"."`
directories, and return the first project whose stripped dir followed by
`'/'` is a prefix of the changed path. -/
def best_match (projects : List Project) (file_path : String) : Option String :=
  (projects.mergeSort fun a b => decide (b.dir.length ≤ a.dir.length)).findSome? fun p =>
    let p_dir := pyRstripSlash p.dir
    if p_dir = "" || p_dir = "." then none
    else if pyStartswith file_path (p_dir ++ "/") then some p.path
    else none

/-- Insertion-ordered dict update `direct_affected.setdefault(key, []).append(fi)`
(src/gradle-diff.py:153-154). -/
def addDirect : List (String × List FileInfo) → String → FileInfo → List (String × List FileInfo)
  | [], key, fi => [(key, [fi])]
  | (k, fis) :: rest, key, fi =>
    if k = key then (k, fis ++ [fi]) :: rest
    else (k, fis) :: addDirect rest key fi

/-- Step 2 (src/gradle-diff.py:142-154): map every changed file to its owning
project; files with no match contribute nothing. -/
def direct_affected (projects : List Project) (changed_files : List FileInfo) :
    List (String × List FileInfo) :=
  changed_files.foldl
    (fun acc fi =>
      match best_match projects fi.path with
      | some bm => addDirect acc bm fi
      | none => acc)
    []

/-- `current in dependants`: the dependants dict is keyed by the project
paths of the graph (src/gradle-diff.py:159). -/
def isProjectPath (projects : List Project) (s : String) : Bool :=
  projects.any fun p => p.path = s

/-- The dependants of `path` (src/gradle-diff.py:159-163): every project
that lists `path` among its dependencies.  Python stores them in a set
whose iteration order is unspecified; we fix the insertion order (graph
order, deduplicated), which realises one admissible iteration order. -/
def dependantsOf (projects : List Project) (path : String) : List String :=
  ((projects.filter fun p => p.dependencies.contains path).map Project.path).dedup

/-- `dep_of_current in transitive_reasons` (src/gradle-diff.py:178-180). -/
def hasReason (r : List (String × Finset String)) (d : String) : Bool :=
  r.any fun kv => kv.1 = d

/-- `transitive_reasons.setdefault(d, set()).add(current)`: add `c` to the
reason set of `d`, creating the (insertion-ordered) entry if absent. -/
def addReason : List (String × Finset String) → String → String → List (String × Finset String)
  | [], d, c => [(d, {c})]
  | (k, s) :: rest, d, c =>
    if k = d then (k, insert c s) :: rest
    else (k, s) :: addReason rest d c

/-- Body of the inner loop of step 4 (src/gradle-diff.py:174-181) for one
dependant `d` of the popped project `current`; the state is
(total_affected, queue, transitive_reasons). -/
def bfsStep (current : String)
    (st : Finset String × List String × List (String × Finset String)) (d : String) :
    Finset String × List String × List (String × Finset String) :=
  if d ∉ st.1 then (insert d st.1, st.2.1 ++ [d], addReason st.2.2 d current)
  else if hasReason st.2.2 d then (st.1, st.2.1, addReason st.2.2 d current)
  else st

/-- The key set of the graph: every project path. -/
def projPaths (projects : List Project) : Finset String :=
  (projects.map Project.path).toFinset

/-- Termination measure of the step-4 loop: queue length plus the number of
project paths not yet in the affected set. -/
def stMeasure (projects : List Project)
    (st : Finset String × List String × List (String × Finset String)) : Nat :=
  st.2.1.length + (projPaths projects \ st.1).card

theorem mem_projPaths_of_mem_dependantsOf {projects : List Project} {c d : String}
    (h : d ∈ dependantsOf projects c) : d ∈ projPaths projects := by
  rw [dependantsOf, List.mem_dedup, List.mem_map] at h
  rcases h with ⟨p, hp, rfl⟩
  exact List.mem_toFinset.mpr (List.mem_map_of_mem Project.path (List.mem_of_mem_filter hp))

theorem bfsStep_measure_le (projects : List Project) (current d : String)
    (st : Finset String × List String × List (String × Finset String))
    (hd : d ∈ projPaths projects) :
    stMeasure projects (bfsStep current st d) ≤ stMeasure projects st := by
  obtain ⟨t, q, r⟩ := st
  by_cases hmem : d ∈ t
  · by_cases hr : hasReason r d
    · simp [bfsStep, hmem, hr, stMeasure]
    · simp [bfsStep, hmem, hr, stMeasure]
  · have hsd : d ∈ projPaths projects \ t := Finset.mem_sdiff.mpr ⟨hd, hmem⟩
    have hcard : (projPaths projects \ insert d t).card = (projPaths projects \ t).card - 1 := by
      rw [Finset.sdiff_insert, Finset.card_erase_of_mem hsd]
    have hpos : 0 < (projPaths projects \ t).card := Finset.card_pos.mpr ⟨d, hsd⟩
    simp only [bfsStep, hmem, not_false_eq_true, if_pos, stMeasure, List.length_append,
      List.length_cons, List.length_nil, hcard]
    omega

theorem foldl_bfsStep_measure_le (projects : List Project) (current : String) :
    ∀ (ds : List String) (st : Finset String × List String × List (String × Finset String)),
      (∀ d ∈ ds, d ∈ projPaths projects) →
      stMeasure projects (ds.foldl (bfsStep current) st) ≤ stMeasure projects st := by
  intro ds
  induction ds with
  | nil => intro st _; exact le_refl _
  | cons d ds ih =>
    intro st hds
    calc stMeasure projects ((d :: ds).foldl (bfsStep current) st)
        = stMeasure projects (ds.foldl (bfsStep current) (bfsStep current st d)) := by
          rw [List.foldl_cons]
      _ ≤ stMeasure projects (bfsStep current st d) :=
          ih _ (fun x hx => hds x (List.mem_cons_of_mem d hx))
      _ ≤ stMeasure projects st :=
          bfsStep_measure_le projects current d st (hds d (List.mem_cons_self d ds))

/-- Step 4, the transitive-closure loop (src/gradle-diff.py:165-181):
`while queue: current = queue.pop(0); ...`.  Terminates because each loop
iteration strictly decreases `stMeasure`: popping shortens the queue and
every element appended to the queue is simultaneously added to the affected
set, so dependency cycles cannot produce reprocessing. -/
def bfs (projects : List Project) (total : Finset String) (queue : List String)
    (reasons : List (String × Finset String)) :
    Finset String × List (String × Finset String) :=
  match queue with
  | [] => (total, reasons)
  | current :: rest =>
    let ds := if isProjectPath projects current then dependantsOf projects current else []
    let st := ds.foldl (bfsStep current) (total, rest, reasons)
    bfs projects st.1 st.2.1 st.2.2
termination_by stMeasure projects (total, queue, reasons)
decreasing_by
  have hsub : ∀ d ∈ ds, d ∈ projPaths projects := by
    intro d hd
    by_cases hc : isProjectPath projects current
    · simp only [ds, hc, if_pos] at hd
      exact mem_projPaths_of_mem_dependantsOf hd
    · simp [ds, hc] at hd
  have h₁ : stMeasure projects st ≤ stMeasure projects (total, rest, reasons) :=
    foldl_bfsStep_measure_le projects current ds (total, rest, reasons) hsub
  have h₂ : stMeasure projects (total, rest, reasons)
      < stMeasure projects (total, current :: rest, reasons) := by
    simp [stMeasure]
  exact lt_of_le_of_lt h₁ h₂

/-- The structured part of the report built by the resolver
(src/gradle-diff.py:116-120): `global_trigger`, `direct_impact` (an
insertion-ordered dict from project path to the change records mapped into
it) and `transitive_impact` (from project path to the set of contributing
upstream causes; Python later serialises each set as a list in unspecified
order, so the set itself is the faithful value). -/
structure ReportData where
  global_trigger : Option String
  direct_impact : List (String × List FileInfo)
  transitive_impact : List (String × Finset String)
  deriving DecidableEq

/-- Embeds `find_affected_projects(graph_file, changed_files)`
(src/gradle-diff.py:108-185).  A missing graph file returns `([], dict())`,
modelled as `([], none)`; a file that exists but cannot be read or parsed
makes `open`/`json.load` raise an uncaught exception, modelled as
`Except.error`.  Otherwise: global-trigger short circuit, direct mapping,
dependant inversion and transitive closure, and finally the ascending sort
of the affected set. -/
def find_affected_projects (graph_file : GraphFile) (changed_files : List FileInfo) :
    Except Unit (List String × Option ReportData) :=
  match graph_file with
  | .missing => .ok ([], none)
  | .unreadable => .error ()
  | .content projects =>
    let changed_paths := changed_files.map FileInfo.path
    match changed_paths.find? (fun fp => global_triggers.any fun t => pyStartswith fp t) with
    | some fp =>
      .ok (((projects.filter fun p => p.path != ":").map Project.path).mergeSort pyStrLe,
        some ⟨some fp, [], []⟩)
    | none =>
      let direct := direct_affected projects changed_files
      let seeds := direct.map Prod.fst
      let res := bfs projects seeds.toFinset seeds []
      .ok (Finset.sort strle res.1, some ⟨none, direct, res.2⟩)

/-! ### get_git_info (src/gradle-diff.py:74-106) and the tail of main
(src/gradle-diff.py:412-442) -/

/-- One parsed commit record. -/
structure Commit where
  hash : String
  author : String
  date : String
  subject : String
  deriving DecidableEq

/-- Outcome of the git collaborator: either the commit list and the
changed-file records since the reference commit, or a failure of the git
subprocess (the reference commit cannot be resolved). -/
inductive GitOutcome where
  | ok (commits : List Commit) (files : List FileInfo)
  | failure
  deriving DecidableEq

/-- `re.match` against IGNORED_PATTERNS (src/gradle-diff.py:17-24): the
anchored regexes amount to a suffix test for `.*\.md$` and order-preserving
anchored-prefix tests for the remaining patterns. -/
def matchesIgnored (p : String) : Bool :=
  pyEndswith p ".md" || pyStartswith p "docs/" || pyStartswith p ".gitignore" ||
    pyStartswith p "jenkins/" || pyStartswith p "scripts/" || pyStartswith p ".github/"

/-- Embeds `get_git_info` (src/gradle-diff.py:74-106): on success it returns
(commits, all_files, filtered_files) and prints nothing to stderr; on
`subprocess.CalledProcessError` it catches the exception, prints one
diagnostic line to stderr and returns three empty lists.  The fourth
component models the stderr diagnostic lines. -/
def get_git_info (out : GitOutcome) :
    List Commit × List FileInfo × List FileInfo × List String :=
  match out with
  | .ok commits files =>
    (commits, files, files.filter (fun fi => !matchesIgnored fi.path), [])
  | .failure =>
    ([], [], [], ["Error: Git operations failed for commit"])

/-- Task expansion (src/gradle-diff.py:430-434): skip the sentinel root and
emit `p:t` for every affected project and task name. -/
def task_list (affected task_names : List String) : List String :=
  affected.foldl
    (fun acc p =>
      if p = ":" then acc
      else acc ++ task_names.map fun t => p ++ ":" ++ t)
    []

/-- Embeds the tail of `main` after the cache phase
(src/gradle-diff.py:412-442): analyse git changes; with an empty filtered
list return immediately (exit status 0, no task list printed); otherwise run
the resolver (whose uncaught exception on an unreadable graph aborts the
process, modelled as `Except.error`), then print the task list when the
affected set is nonempty and exit 0. -/
def main_after_cache (git : GitOutcome) (graph_file : GraphFile)
    (task_names : List String) : Except Unit (Nat × List String) :=
  let gi := get_git_info git
  let filtered := gi.2.2.1
  if filtered.isEmpty then .ok (0, [])
  else
    match find_affected_projects graph_file filtered with
    | .error e => .error e
    | .ok (affected_paths, _) =>
      .ok (0, if affected_paths.isEmpty then [] else task_list affected_paths task_names)

/-! ### Cache Coordinator (src/gradle-diff.py:367-410) -/

/-- Environment of the cache phase of `main`: whether the graph snapshot
file exists, the stripped content of the persisted hash marker (`none` when
the marker file is missing), the freshly computed configuration hash, the
remote bucket configuration, whether a remote fetch would succeed
(`aws s3 ls` and `aws s3 cp` both succeeding), and whether graph
regeneration via gradle would succeed. -/
structure CacheEnv where
  graphExists : Bool
  hashMarker : Option String
  currentHash : String
  bucket : Option String
  remoteFetchOk : Bool
  refreshOk : Bool
  deriving DecidableEq

/-- Observable outcome of the cache phase: the report cache field
(status, source) and which side effects were performed. -/
structure CacheOutcome where
  cacheStatus : String
  cacheSource : String
  wroteMarker : Bool
  fetchedRemote : Bool
  refreshedGraph : Bool
  uploadAttempted : Bool
  deriving DecidableEq

/-- `s3_download` (src/gradle-diff.py:39-50): returns false without bucket
configuration, false when `aws s3 ls` or the copy fails (the exception is
caught), true on a successful fetch. -/
def s3_download_ok (env : CacheEnv) : Bool :=
  env.bucket.isSome && env.remoteFetchOk

/-- Embeds the cache logic of `main` (src/gradle-diff.py:382-410).
`stale` starts true and is cleared only when the snapshot exists, the
marker exists and the marker equals the current hash.  When stale: try the
remote fetch, else regenerate via gradle (`sys.exit(1)` on failure, modelled
as `Except.error`) and attempt the upload when a bucket is configured; in
either stale branch the hash marker is rewritten.  When not stale nothing
at all happens and the report keeps its initial `("hit", "local")` value. -/
def cache_phase (env : CacheEnv) : Except Unit CacheOutcome :=
  let stale := !(env.graphExists && (env.hashMarker == some env.currentHash))
  if stale then
    if env.bucket.isSome && s3_download_ok env then
      .ok ⟨"hit", "s3", true, true, false, false⟩
    else
      if env.refreshOk then
        .ok ⟨"miss", "none", true, false, true, env.bucket.isSome⟩
      else .error ()
  else .ok ⟨"hit", "local", false, false, false, false⟩

/-! ### Key-set invariant of the transitive-closure loop

Throughout step 4 the affected set equals the seed set (the keys of
`direct_impact`) together with the keys of `transitive_reasons`, and these
two key sets stay disjoint: a project receives a transitive-reason entry
exactly when it is first added to the affected set, which cannot happen to
a seed. -/

/-- Key list of an insertion-ordered dict. -/
def keysOf (r : List (String × Finset String)) : List String :=
  r.map Prod.fst

theorem mem_keysOf_addReason {r : List (String × Finset String)} {d c x : String} :
    x ∈ keysOf (addReason r d c) ↔ x ∈ keysOf r ∨ x = d := by
  induction r with
  | nil => simp [addReason, keysOf]
  | cons kv rest ih =>
    obtain ⟨k, s⟩ := kv
    by_cases hk : k = d
    · subst hk
      simp [addReason, keysOf]
      tauto
    · simp [addReason, hk, keysOf] at ih ⊢
      tauto

theorem hasReason_iff {r : List (String × Finset String)} {d : String} :
    hasReason r d = true ↔ d ∈ keysOf r := by
  simp only [hasReason, List.any_eq_true, decide_eq_true_eq, keysOf, List.mem_map]

/-- The loop-body step preserves the key-set invariant. -/
theorem bfsStep_inv {seed : Finset String} {current : String}
    {st : Finset String × List String × List (String × Finset String)}
    (h : (∀ x, x ∈ st.1 ↔ x ∈ seed ∨ x ∈ keysOf st.2.2) ∧ ∀ x ∈ seed, x ∉ keysOf st.2.2)
    (d : String) :
    (∀ x, x ∈ (bfsStep current st d).1 ↔
        x ∈ seed ∨ x ∈ keysOf (bfsStep current st d).2.2)
      ∧ ∀ x ∈ seed, x ∉ keysOf (bfsStep current st d).2.2 := by
  obtain ⟨t, q, r⟩ := st
  obtain ⟨h₁, h₂⟩ := h
  by_cases hmem : d ∈ t
  · by_cases hr : hasReason r d
    · have hdk : d ∈ keysOf r := hasReason_iff.mp hr
      simp only [bfsStep, hmem, not_true_eq_false, if_false, hr, if_pos]
      constructor
      · intro x
        rw [h₁ x, mem_keysOf_addReason]
        constructor
        · tauto
        · rintro (hx | hx | rfl) <;> tauto
      · intro x hx hcon
        rcases mem_keysOf_addReason.mp hcon with hk | rfl
        · exact h₂ x hx hk
        · exact h₂ x hx hdk
    · simpa [bfsStep, hmem, hr] using ⟨h₁, h₂⟩
  · simp only [bfsStep, hmem, not_false_eq_true, if_pos]
    constructor
    · intro x
      rw [Finset.mem_insert, h₁ x, mem_keysOf_addReason]
      tauto
    · intro x hx hcon
      rcases mem_keysOf_addReason.mp hcon with hk | rfl
      · exact h₂ x hx hk
      · exact hmem ((h₁ x).mpr (Or.inl hx))

theorem foldl_bfsStep_inv {seed : Finset String} {current : String}
    (ds : List String) (st : Finset String × List String × List (String × Finset String))
    (h : (∀ x, x ∈ st.1 ↔ x ∈ seed ∨ x ∈ keysOf st.2.2) ∧ ∀ x ∈ seed, x ∉ keysOf st.2.2) :
    (∀ x, x ∈ (ds.foldl (bfsStep current) st).1 ↔
        x ∈ seed ∨ x ∈ keysOf (ds.foldl (bfsStep current) st).2.2)
      ∧ ∀ x ∈ seed, x ∉ keysOf (ds.foldl (bfsStep current) st).2.2 := by
  induction ds generalizing st with
  | nil => exact h
  | cons d ds ih => exact ih _ (bfsStep_inv h d)

theorem bfs_inv (projects : List Project) (seed : Finset String)
    (total : Finset String) (queue : List String)
    (reasons : List (String × Finset String)) :
    ((∀ x, x ∈ total ↔ x ∈ seed ∨ x ∈ keysOf reasons) ∧ ∀ x ∈ seed, x ∉ keysOf reasons) →
    (∀ x, x ∈ (bfs projects total queue reasons).1 ↔
        x ∈ seed ∨ x ∈ keysOf (bfs projects total queue reasons).2)
      ∧ ∀ x ∈ seed, x ∉ keysOf (bfs projects total queue reasons).2 := by
  induction total, queue, reasons using bfs.induct projects with
  | case1 total reasons =>
    intro h
    rw [bfs]
    exact h
  | case2 total reasons current rest ds st ih =>
    intro h
    rw [bfs]
    exact ih (foldl_bfsStep_inv ds (total, rest, reasons) h)

/-- A change list in which no path starts with a global trigger makes the
step-1 scan come up empty. -/
theorem no_trigger_find_none {changed_paths : List String}
    (h : ∀ fp ∈ changed_paths, ∀ t ∈ global_triggers, pyStartswith fp t = false) :
    changed_paths.find? (fun fp => global_triggers.any fun t => pyStartswith fp t) = none := by
  rw [List.find?_eq_none]
  intro x hx
  simp only [List.any_eq_true, not_exists, not_and]
  intro t ht
  simp [h x hx t ht]

/-- Shared description of the resolver output when no global trigger
matches: the run reaches steps 2-4, the returned sequence is the
ascending-sorted affected set, and the affected set is the disjoint union
of the key sets of the two provenance maps. -/
theorem find_affected_no_trigger (projects : List Project) (changed_files : List FileInfo)
    (h : ∀ fp ∈ changed_files.map FileInfo.path, ∀ t ∈ global_triggers,
      pyStartswith fp t = false) :
    ∃ lst rep, find_affected_projects (.content projects) changed_files = .ok (lst, some rep) ∧
      rep.global_trigger = none ∧
      rep.direct_impact = direct_affected projects changed_files ∧
      List.Sorted strle lst ∧ lst.Nodup ∧
      (∀ x, x ∈ lst ↔
        x ∈ rep.direct_impact.map Prod.fst ∨ x ∈ rep.transitive_impact.map Prod.fst) ∧
      ∀ x ∈ rep.direct_impact.map Prod.fst, x ∉ rep.transitive_impact.map Prod.fst := by
  have hfind := no_trigger_find_none h
  simp only [find_affected_projects, hfind]
  set direct := direct_affected projects changed_files with hdirect
  set seeds := direct.map Prod.fst with hseeds
  set res := bfs projects seeds.toFinset seeds [] with hres
  have hinv := bfs_inv projects seeds.toFinset seeds.toFinset seeds []
    ⟨fun x => by simp [keysOf], fun x _ => by simp [keysOf]⟩
  refine ⟨Finset.sort strle res.1, ⟨none, direct, res.2⟩, rfl, rfl, rfl, ?_, ?_, ?_, ?_⟩
  · exact Finset.sort_sorted strle res.1
  · exact Finset.sort_nodup strle res.1
  · intro x
    rw [Finset.mem_sort]
    have := (hinv.1 x)
    rw [this, List.mem_toFinset]
    exact Iff.rfl
  · intro x hx
    exact hinv.2 x (List.mem_toFinset.mpr hx)

instance {ε α : Type} [DecidableEq ε] [DecidableEq α] : DecidableEq (Except ε α) := fun a b =>
  match a, b with
  | .ok x, .ok y =>
    if h : x = y then isTrue (by rw [h]) else isFalse (fun hh => h (by injection hh))
  | .error x, .error y =>
    if h : x = y then isTrue (by rw [h]) else isFalse (fun hh => h (by injection hh))
  | .ok _, .error _ => isFalse (fun hh => Except.noConfusion hh)
  | .error _, .ok _ => isFalse (fun hh => Except.noConfusion hh)

/-! ### Claims -/

/-- C10: for every run in which no global trigger matches, the affected set
computed by the resolver is the disjoint union of the key set of
directImpact and the key set of transitiveImpact: every affected project
appears as a key in exactly one of the two provenance maps, never in both
and never in neither. -/
theorem c10_affected_partition (projects : List Project) (changed_files : List FileInfo)
    (h : ∀ fp ∈ changed_files.map FileInfo.path, ∀ t ∈ global_triggers,
      pyStartswith fp t = false) :
    ∃ lst rep, find_affected_projects (.content projects) changed_files = .ok (lst, some rep) ∧
      ∀ x, x ∈ lst ↔
        (x ∈ rep.direct_impact.map Prod.fst ∧ x ∉ rep.transitive_impact.map Prod.fst) ∨
        (x ∉ rep.direct_impact.map Prod.fst ∧ x ∈ rep.transitive_impact.map Prod.fst) := by
  obtain ⟨lst, rep, heq, -, -, -, -, hmem, hdisj⟩ :=
    find_affected_no_trigger projects changed_files h
  refine ⟨lst, rep, heq, fun x => ?_⟩
  rw [hmem x]
  constructor
  · rintro (hd | ht)
    · exact Or.inl ⟨hd, hdisj x hd⟩
    · by_cases hd : x ∈ rep.direct_impact.map Prod.fst
      · exact Or.inl ⟨hd, hdisj x hd⟩
      · exact Or.inr ⟨hd, ht⟩
  · rintro (⟨hd, -⟩ | ⟨-, ht⟩)
    · exact Or.inl hd
    · exact Or.inr ht

/-- Witness for C10 at the graph `:a ← :b` with changes in both project
directories. -/
theorem c10_witness :
    (∀ fp ∈ ([⟨"M", "a/x.txt"⟩] : List FileInfo).map FileInfo.path,
      ∀ t ∈ global_triggers, pyStartswith fp t = false)
    ∧ ∃ lst rep,
        find_affected_projects (.content [⟨":a", "a", []⟩, ⟨":b", "b", [":a"]⟩])
            [⟨"M", "a/x.txt"⟩] = .ok (lst, some rep) ∧
          ∀ x, x ∈ lst ↔
            (x ∈ rep.direct_impact.map Prod.fst ∧ x ∉ rep.transitive_impact.map Prod.fst) ∨
            (x ∉ rep.direct_impact.map Prod.fst ∧ x ∈ rep.transitive_impact.map Prod.fst) :=
  ⟨by decide, c10_affected_partition [⟨":a", "a", []⟩, ⟨":b", "b", [":a"]⟩]
    [⟨"M", "a/x.txt"⟩] (by decide)⟩

unseal bfs List.mergeSort List.merge in
/-- C1 counterexample: with a root project that declares a dependency on
`:a` and a change inside `a/`, the resolver returns `[":", ":a"]`: the
sentinel root path appears in the returned sequence, contrary to the claim
that it is always removed. -/
theorem c1_counterexample :
    find_affected_projects (.content [⟨":", "", [":a"]⟩, ⟨":a", "a", []⟩]) [⟨"M", "a/x.txt"⟩]
      = .ok ([":", ":a"], some ⟨none, [(":a", [⟨"M", "a/x.txt"⟩])], [(":", {":a"})]⟩)
    ∧ ":" ∈ ([":", ":a"] : List String) :=
  ⟨rfl, by decide⟩

/-- C1 amended: when no global trigger matches, `affectedProjects` is the
lexicographically sorted, duplicate-free union of the direct-impact and
transitive-impact key sets; the sentinel root path is NOT removed at this
stage (it is excluded only downstream, during task expansion and report
rendering), so the root can appear when it declares dependencies and is
reached by transitive expansion. -/
theorem c1_sorted_union (projects : List Project) (changed_files : List FileInfo)
    (h : ∀ fp ∈ changed_files.map FileInfo.path, ∀ t ∈ global_triggers,
      pyStartswith fp t = false) :
    ∃ lst rep, find_affected_projects (.content projects) changed_files = .ok (lst, some rep) ∧
      List.Sorted strle lst ∧ lst.Nodup ∧
      ∀ x, x ∈ lst ↔
        x ∈ rep.direct_impact.map Prod.fst ∨ x ∈ rep.transitive_impact.map Prod.fst := by
  obtain ⟨lst, rep, heq, -, -, hsort, hnodup, hmem, -⟩ :=
    find_affected_no_trigger projects changed_files h
  exact ⟨lst, rep, heq, hsort, hnodup, hmem⟩

/-- Witness for the amended C1 at the root-dependency graph of the
counterexample. -/
theorem c1_witness :
    (∀ fp ∈ ([⟨"M", "a/x.txt"⟩] : List FileInfo).map FileInfo.path,
      ∀ t ∈ global_triggers, pyStartswith fp t = false)
    ∧ ∃ lst rep,
        find_affected_projects (.content [⟨":", "", [":a"]⟩, ⟨":a", "a", []⟩])
            [⟨"M", "a/x.txt"⟩] = .ok (lst, some rep) ∧
          List.Sorted strle lst ∧ lst.Nodup ∧
          ∀ x, x ∈ lst ↔
            x ∈ rep.direct_impact.map Prod.fst ∨ x ∈ rep.transitive_impact.map Prod.fst :=
  ⟨by decide, c1_sorted_union [⟨":", "", [":a"]⟩, ⟨":a", "a", []⟩]
    [⟨"M", "a/x.txt"⟩] (by decide)⟩

unseal bfs List.mergeSort List.merge in
/-- C2 counterexample: in the graph `:b depends on :a` with changes in both
`a/` and `b/`, both projects are directly affected; when `:a` is popped its
dependant `:b` is already in the affected set, yet no contributing cause is
recorded: `transitive_impact` stays empty, because the source records an
additional cause only for dependants that already have a
`transitive_reasons` entry, which a directly affected project never has. -/
theorem c2_counterexample :
    find_affected_projects (.content [⟨":a", "a", []⟩, ⟨":b", "b", [":a"]⟩])
        [⟨"M", "a/x.txt"⟩, ⟨"M", "b/y.txt"⟩]
      = .ok ([":a", ":b"],
          some ⟨none, [(":a", [⟨"M", "a/x.txt"⟩]), (":b", [⟨"M", "b/y.txt"⟩])], []⟩)
    ∧ dependantsOf [⟨":a", "a", []⟩, ⟨":b", "b", [":a"]⟩] ":a" = [":b"] :=
  ⟨rfl, rfl⟩

unseal bfs List.mergeSort List.merge in
/-- C2 amended: when a popped project P has a dependant D already in the
affected set, the resolver records P as an additional cause only when D
already has a transitiveImpact entry (i.e. D itself entered the affected
set transitively); a dependant that is in the affected set without such an
entry (in particular a directly affected one) receives no cause.  In no
case is D re-enqueued.  First conjunct: directly affected projects never
carry a transitiveImpact entry.  Second conjunct: in the diamond
`:b dep :a`, `:c dep :a,:b` with a change in `a/`, the already-affected
`:c` receives the additional cause `:b` when `:b` is popped, and each
project still appears exactly once in the output. -/
theorem c2_amended :
    (∀ (projects : List Project) (changed_files : List FileInfo),
      (∀ fp ∈ changed_files.map FileInfo.path, ∀ t ∈ global_triggers,
        pyStartswith fp t = false) →
      ∀ lst rep, find_affected_projects (.content projects) changed_files = .ok (lst, some rep) →
        ∀ x ∈ rep.direct_impact.map Prod.fst, x ∉ rep.transitive_impact.map Prod.fst)
    ∧ find_affected_projects
        (.content [⟨":a", "a", []⟩, ⟨":b", "b", [":a"]⟩, ⟨":c", "c", [":a", ":b"]⟩])
        [⟨"M", "a/x.txt"⟩]
      = .ok ([":a", ":b", ":c"],
          some ⟨none, [(":a", [⟨"M", "a/x.txt"⟩])], [(":b", {":a"}), (":c", {":b", ":a"})]⟩) := by
  constructor
  · intro projects changed_files h lst rep heq x hx
    obtain ⟨lst', rep', heq', -, -, -, -, -, hdisj⟩ :=
      find_affected_no_trigger projects changed_files h
    rw [heq] at heq'
    obtain ⟨rfl, rfl⟩ : lst = lst' ∧ rep = rep' := by
      have := congrArg (fun r => match r with | .ok v => v | .error _ => ([], none)) heq'
      simp at this
      exact ⟨this.1, this.2⟩
    exact hdisj x hx
  · rfl

/-- Witness for the amended C2 (first conjunct instantiated at the diamond
graph). -/
theorem c2_witness :
    (∀ fp ∈ ([⟨"M", "a/x.txt"⟩] : List FileInfo).map FileInfo.path,
      ∀ t ∈ global_triggers, pyStartswith fp t = false)
    ∧ (∀ lst rep,
        find_affected_projects
            (.content [⟨":a", "a", []⟩, ⟨":b", "b", [":a"]⟩, ⟨":c", "c", [":a", ":b"]⟩])
            [⟨"M", "a/x.txt"⟩] = .ok (lst, some rep) →
        ∀ x ∈ rep.direct_impact.map Prod.fst, x ∉ rep.transitive_impact.map Prod.fst) :=
  ⟨by decide, c2_amended.1 [⟨":a", "a", []⟩, ⟨":b", "b", [":a"]⟩, ⟨":c", "c", [":a", ":b"]⟩]
    [⟨"M", "a/x.txt"⟩] (by decide)⟩

/-- C5: if any changed path starts with one of the fixed global-trigger
prefixes, the resolver sets globalTrigger to the first such path, returns
the sorted sequence of every non-root project path as the affected set with
directImpact and transitiveImpact both empty, and skips direct mapping and
transitive expansion entirely regardless of other changes present. -/
theorem c5_global_trigger (projects : List Project) (changed_files : List FileInfo)
    (h : ∃ fp ∈ changed_files.map FileInfo.path, ∃ t ∈ global_triggers,
      pyStartswith fp t = true) :
    ∃ fp₀ ∈ changed_files.map FileInfo.path,
      (∃ t ∈ global_triggers, pyStartswith fp₀ t = true) ∧
      find_affected_projects (.content projects) changed_files =
        .ok (((projects.filter fun p => p.path != ":").map Project.path).mergeSort pyStrLe,
          some ⟨some fp₀, [], []⟩) ∧
      List.Sorted strle
        (((projects.filter fun p => p.path != ":").map Project.path).mergeSort pyStrLe) ∧
      ∀ x, x ∈ ((projects.filter fun p => p.path != ":").map Project.path).mergeSort pyStrLe ↔
        (∃ p ∈ projects, p.path = x) ∧ x ≠ ":" := by
  have hsome : ((changed_files.map FileInfo.path).find?
      (fun fp => global_triggers.any fun t => pyStartswith fp t)).isSome := by
    rw [List.find?_isSome]
    obtain ⟨fp, hfp, t, ht, hmatch⟩ := h
    refine ⟨fp, hfp, ?_⟩
    simp only [List.any_eq_true]
    exact ⟨t, ht, hmatch⟩
  obtain ⟨fp₀, hfind⟩ := Option.isSome_iff_exists.mp hsome
  refine ⟨fp₀, List.mem_of_find?_eq_some hfind, ?_, ?_, ?_, ?_⟩
  · have := List.find?_some hfind
    simpa [List.any_eq_true] using this
  · simp [find_affected_projects, hfind]
  · exact mergeSort_pyStrLe_sorted _
  · intro x
    rw [List.mem_mergeSort, List.mem_map]
    constructor
    · rintro ⟨p, hp, rfl⟩
      rw [List.mem_filter] at hp
      refine ⟨⟨p, hp.1, rfl⟩, ?_⟩
      simpa using hp.2
    · rintro ⟨⟨p, hp, rfl⟩, hroot⟩
      exact ⟨p, List.mem_filter.mpr ⟨hp, by simpa using hroot⟩, rfl⟩

/-- Witness for C5: `gradle.properties` triggers globally even though a
project-mapped change is also present. -/
theorem c5_witness :
    (∃ fp ∈ ([⟨"M", "gradle.properties"⟩, ⟨"M", "a/x.txt"⟩] : List FileInfo).map FileInfo.path,
      ∃ t ∈ global_triggers, pyStartswith fp t = true)
    ∧ ∃ fp₀ ∈ ([⟨"M", "gradle.properties"⟩, ⟨"M", "a/x.txt"⟩] : List FileInfo).map FileInfo.path,
        (∃ t ∈ global_triggers, pyStartswith fp₀ t = true) ∧
        find_affected_projects
            (.content [⟨":", "", []⟩, ⟨":a", "a", []⟩, ⟨":b", "b", []⟩])
            [⟨"M", "gradle.properties"⟩, ⟨"M", "a/x.txt"⟩] =
          .ok ((((([⟨":", "", []⟩, ⟨":a", "a", []⟩, ⟨":b", "b", []⟩] : List Project).filter
              fun p => p.path != ":").map Project.path).mergeSort pyStrLe),
            some ⟨some fp₀, [], []⟩) ∧
        List.Sorted strle
          (((([⟨":", "", []⟩, ⟨":a", "a", []⟩, ⟨":b", "b", []⟩] : List Project).filter
              fun p => p.path != ":").map Project.path).mergeSort pyStrLe) ∧
        ∀ x, x ∈ ((([⟨":", "", []⟩, ⟨":a", "a", []⟩, ⟨":b", "b", []⟩] : List Project).filter
              fun p => p.path != ":").map Project.path).mergeSort pyStrLe ↔
          (∃ p ∈ ([⟨":", "", []⟩, ⟨":a", "a", []⟩, ⟨":b", "b", []⟩] : List Project), p.path = x)
            ∧ x ≠ ":" :=
  ⟨by decide, c5_global_trigger [⟨":", "", []⟩, ⟨":a", "a", []⟩, ⟨":b", "b", []⟩]
    [⟨"M", "gradle.properties"⟩, ⟨"M", "a/x.txt"⟩] (by decide)⟩

unseal bfs List.mergeSort List.merge in
/-- C6: the transitive-closure traversal is total (the definition of `bfs`
carries a well-foundedness proof on `stMeasure`: every loop iteration pops
one element and every enqueued element is simultaneously added to the
affected set, so the loop terminates on every finite graph, cycles
included).  For the cycle `:a dep :b, :b dep :a` with a change in `a/`,
both projects are included exactly once each; in general the returned
sequence of the traversal never contains a duplicate, reflecting that each
project is enqueued at most once. -/
theorem c6_cycle_termination :
    find_affected_projects (.content [⟨":a", "a", [":b"]⟩, ⟨":b", "b", [":a"]⟩])
        [⟨"M", "a/x.txt"⟩]
      = .ok ([":a", ":b"], some ⟨none, [(":a", [⟨"M", "a/x.txt"⟩])], [(":b", {":a"})]⟩)
    ∧ (([":a", ":b"] : List String).count ":a" = 1
        ∧ ([":a", ":b"] : List String).count ":b" = 1)
    ∧ ∀ (projects : List Project) (changed_files : List FileInfo),
        (∀ fp ∈ changed_files.map FileInfo.path, ∀ t ∈ global_triggers,
          pyStartswith fp t = false) →
        ∀ lst rep,
          find_affected_projects (.content projects) changed_files = .ok (lst, some rep) →
          lst.Nodup := by
  refine ⟨rfl, by decide, ?_⟩
  intro projects changed_files h lst rep heq
  obtain ⟨lst', rep', heq', -, -, -, hnodup, -, -⟩ :=
    find_affected_no_trigger projects changed_files h
  rw [heq] at heq'
  have hl : lst = lst' := by
    have := congrArg (fun r => match r with | Except.ok v => v.1 | Except.error _ => []) heq'
    simpa using this
  rwa [hl]

unseal bfs List.mergeSort List.merge in
/-- Witness for C6 at the two-cycle itself. -/
theorem c6_witness :
    (∀ fp ∈ ([⟨"M", "a/x.txt"⟩] : List FileInfo).map FileInfo.path,
      ∀ t ∈ global_triggers, pyStartswith fp t = false)
    ∧ ([":a", ":b"] : List String).Nodup :=
  ⟨by decide,
    c6_cycle_termination.2.2 [⟨":a", "a", [":b"]⟩, ⟨":b", "b", [":a"]⟩] [⟨"M", "a/x.txt"⟩]
      (by decide) [":a", ":b"]
      ⟨none, [(":a", [⟨"M", "a/x.txt"⟩])], [(":b", {":a"})]⟩ rfl⟩

/-- C7: the configuration hash depends only on the set of existing files
and their contents: the hashed byte stream is invariant under permutation
of the input file list (the list is sorted before hashing), and paths that
do not exist on disk are skipped silently, contributing nothing. -/
theorem c7_hash_order_invariant (fs : FileSystem) (l₁ l₂ : List String) (h : l₁.Perm l₂) :
    get_hash fs l₁ = get_hash fs l₂
    ∧ get_hash fs l₁ = get_hash fs (l₁.filter fun f => (fs f).isSome) := by
  constructor
  · unfold get_hash
    rw [mergeSort_pyStrLe_eq_of_perm h]
  · unfold get_hash
    rw [get_hash_fold_filter, mergeSort_pyStrLe_filter]

/-- Witness for C7: two orderings of the same three paths, one of which
does not exist. -/
theorem c7_witness :
    (["b.gradle", "a.gradle", "gone.toml"] : List String).Perm
        ["a.gradle", "gone.toml", "b.gradle"]
    ∧ (get_hash
          (fun f => if f = "a.gradle" then some [1] else if f = "b.gradle" then some [2, 3]
            else none)
          ["b.gradle", "a.gradle", "gone.toml"]
        = get_hash
            (fun f => if f = "a.gradle" then some [1] else if f = "b.gradle" then some [2, 3]
              else none)
            ["a.gradle", "gone.toml", "b.gradle"]
      ∧ get_hash
          (fun f => if f = "a.gradle" then some [1] else if f = "b.gradle" then some [2, 3]
            else none)
          ["b.gradle", "a.gradle", "gone.toml"]
        = get_hash
            (fun f => if f = "a.gradle" then some [1] else if f = "b.gradle" then some [2, 3]
              else none)
            ((["b.gradle", "a.gradle", "gone.toml"] : List String).filter
              fun f => ((fun f => if f = "a.gradle" then some [1]
                else if f = "b.gradle" then some [2, 3] else none) f).isSome)) :=
  ⟨by decide,
    c7_hash_order_invariant
      (fun f => if f = "a.gradle" then some [1] else if f = "b.gradle" then some [2, 3]
        else none)
      ["b.gradle", "a.gradle", "gone.toml"] ["a.gradle", "gone.toml", "b.gradle"] (by decide)⟩

/-- C3 counterexample: when the git query fails, `get_git_info` catches the
subprocess error, prints a diagnostic and returns three empty lists; `main`
then takes the empty-filtered-changes path and finishes with exit status 0
and no task list, instead of aborting with a non-zero status as the claim
states. -/
theorem c3_counterexample :
    get_git_info .failure = ([], [], [], ["Error: Git operations failed for commit"])
    ∧ main_after_cache .failure (.content [⟨":a", "a", []⟩]) ["test"] = .ok (0, []) :=
  ⟨rfl, rfl⟩

/-- C3 amended: if the source-control query for the reference commit fails,
a diagnostic is printed to the error stream but the run does NOT abort: it
continues with an empty change list and terminates with exit status 0,
emitting no task list. -/
theorem c3_amended (graph_file : GraphFile) (task_names : List String) :
    main_after_cache .failure graph_file task_names = .ok (0, [])
    ∧ (get_git_info .failure).2.2.2 ≠ [] :=
  ⟨rfl, by simp [get_git_info]⟩

/-- C8 counterexample: a graph snapshot file that exists but cannot be read
or parsed does not yield an empty affected set: the exception escapes
`find_affected_projects` and aborts the run, so only the missing-file case
degrades to "nothing affected". -/
theorem c8_counterexample :
    find_affected_projects .unreadable [⟨"M", "a/x.txt"⟩] = .error ()
    ∧ main_after_cache (.ok [] [⟨"M", "a/x.txt"⟩]) .unreadable ["test"] = .error ()
    ∧ main_after_cache (.ok [] [⟨"M", "a/x.txt"⟩]) .unreadable ["test"] ≠ .ok (0, []) :=
  ⟨rfl, rfl, by decide⟩

/-- C8 amended: if the graph snapshot file is MISSING, the resolver returns
an empty affected set and an empty impact report (`([], dict())`) instead of
aborting, and the run exits with status 0 emitting no task list; an
existing but unreadable snapshot instead aborts the run (see the
counterexample). -/
theorem c8_missing_graph (changed_files : List FileInfo) (commits : List Commit)
    (task_names : List String) :
    find_affected_projects .missing changed_files = .ok ([], none)
    ∧ main_after_cache (.ok commits changed_files) .missing task_names = .ok (0, []) := by
  refine ⟨rfl, ?_⟩
  unfold main_after_cache
  by_cases hemp : ((changed_files.filter fun fi => !matchesIgnored fi.path)).isEmpty
  · simp [get_git_info, hemp]
  · simp [get_git_info, hemp, find_affected_projects]

/-! ### C4: longest-directory-prefix attribution

`dirOwns` renders the claim wording: the dir, as written, is a non-empty,
non-root prefix of the changed path matched at a path-segment boundary
(either the dir itself ends in a slash, or the next character of the path
is a slash).  The source instead strips trailing slashes before matching
while ordering candidates by the raw dir length, and the two notions agree
only when no dir carries more than one trailing slash. -/

/-- Claim-side ownership relation (spec section 4.3 step 2 and section 8). -/
def dirOwns (file_path d : String) : Bool :=
  d != "" && pyRstripSlash d != "" && pyRstripSlash d != "." &&
    pyStartswith file_path d &&
    (pyEndswith d "/" || (file_path.data.drop d.data.length).head? == some '/')

/-- The per-project test of the selection loop of `best_match`. -/
def matchTest (file_path : String) (p : Project) : Bool :=
  !(pyRstripSlash p.dir = "" || pyRstripSlash p.dir = ".") &&
    pyStartswith file_path (pyRstripSlash p.dir ++ "/")

theorem best_match_eq_findSome (projects : List Project) (fp : String) :
    best_match projects fp =
      (projects.mergeSort fun a b => decide (b.dir.length ≤ a.dir.length)).findSome?
        (fun p => if matchTest fp p then some p.path else none) := by
  unfold best_match
  congr 1
  funext p
  by_cases h1 : pyRstripSlash p.dir = "" ∨ pyRstripSlash p.dir = "."
  · simp [matchTest, h1]
    rcases h1 with h1 | h1 <;> simp [h1]
  · push_neg at h1
    by_cases h2 : pyStartswith fp (pyRstripSlash p.dir ++ "/") <;>
      simp [matchTest, h1.1, h1.2, h2]

theorem pyRstripSlash_data (s : String) :
    s.data = (pyRstripSlash s).data ++ List.replicate (trailingSlashCount s) '/' := by
  have h2 : s.data.reverse.takeWhile (fun c => decide (c = '/'))
      = List.replicate (trailingSlashCount s) '/' := by
    have : ∀ b ∈ s.data.reverse.takeWhile (fun c => decide (c = '/')), b = '/' := by
      intro b hb
      simpa using List.mem_takeWhile_imp hb
    simpa [trailingSlashCount] using List.eq_replicate_of_mem this
  calc s.data = s.data.reverse.reverse := (s.data.reverse_reverse).symm
    _ = (s.data.reverse.takeWhile (fun c => decide (c = '/'))
          ++ s.data.reverse.dropWhile (fun c => decide (c = '/'))).reverse := by
        rw [List.takeWhile_append_dropWhile]
    _ = (s.data.reverse.dropWhile (fun c => decide (c = '/'))).reverse
          ++ (s.data.reverse.takeWhile (fun c => decide (c = '/'))).reverse := by
        rw [List.reverse_append]
    _ = (pyRstripSlash s).data ++ List.replicate (trailingSlashCount s) '/' := by
        rw [h2, List.reverse_replicate]
        rfl

theorem pyEndswith_slash_iff (d : String) :
    pyEndswith d "/" = true ↔ 1 ≤ trailingSlashCount d := by
  have hdata : ("/" : String).data = ['/'] := rfl
  unfold pyEndswith trailingSlashCount
  rw [hdata]
  unfold List.isSuffixOf
  cases hrev : d.data.reverse with
  | nil => simp
  | cons c rest =>
    by_cases hc : c = '/'
    · subst hc
      simp [List.isPrefixOf, List.takeWhile_cons]
    · simp [List.isPrefixOf, List.takeWhile_cons, hc, Ne.symm hc]

theorem append_singleton_isPrefix {l m : List Char} {a : Char} :
    l ++ [a] <+: m ↔ l <+: m ∧ (m.drop l.length).head? = some a := by
  induction l generalizing m with
  | nil =>
    cases m with
    | nil => simp
    | cons y m => simp [eq_comm]
  | cons x l ih =>
    cases m with
    | nil => simp
    | cons y m => simp [List.cons_prefix_cons, ih, and_assoc]

theorem string_eq_empty_iff (s : String) : s = "" ↔ s.data = [] := by
  constructor
  · rintro rfl; rfl
  · intro h
    apply String.toList_inj.mp
    exact h

theorem bool_eq_of_iff {a b : Bool} (h : a = true ↔ b = true) : a = b := by
  cases a <;> cases b <;> simp_all

theorem matchTest_eq_dirOwns {fp : String} {p : Project}
    (h : trailingSlashCount p.dir ≤ 1) :
    matchTest fp p = dirOwns fp p.dir := by
  apply bool_eq_of_iff
  have hdecomp := pyRstripSlash_data p.dir
  have happ : (pyRstripSlash p.dir ++ "/").data = (pyRstripSlash p.dir).data ++ ['/'] := by
    simp
  have hend := pyEndswith_slash_iff p.dir
  simp only [matchTest, dirOwns, Bool.and_eq_true, Bool.or_eq_true, Bool.not_eq_true',
    Bool.or_eq_false_iff, decide_eq_false_iff_not, bne_iff_ne, ne_eq, beq_iff_eq,
    pyStartswith, List.isPrefixOf_iff_prefix, happ, append_singleton_isPrefix, hend]
  rcases Nat.le_one_iff_eq_zero_or_eq_one.mp h with h0 | h1
  · rw [h0, List.replicate_zero, List.append_nil] at hdecomp
    have hempty : p.dir = "" ↔ pyRstripSlash p.dir = "" := by
      rw [string_eq_empty_iff, string_eq_empty_iff, hdecomp]
    have hno : ¬ (1 ≤ (0 : Nat)) := by omega
    rw [hdecomp, h0]
    tauto
  · have hdecomp1 : p.dir.data = (pyRstripSlash p.dir).data ++ ['/'] := by
      rw [hdecomp, h1]
      rfl
    have hdir_ne : ¬ p.dir = "" := by
      rw [string_eq_empty_iff, hdecomp1]
      simp
    have hyes : (1 : Nat) ≤ 1 := le_refl 1
    rw [hdecomp1, h1]
    simp only [append_singleton_isPrefix]
    tauto

/-- Selection from a list sorted by descending raw dir length: a returned
match is a matching project whose raw dir length is maximal among all
matching entries, and a `none` result means nothing matches. -/
theorem findSome_longest {fp : String} (l : List Project)
    (hpw : l.Pairwise fun a b => b.dir.length ≤ a.dir.length) :
    (∀ path, l.findSome? (fun p => if matchTest fp p then some p.path else none) = some path →
      ∃ p ∈ l, p.path = path ∧ matchTest fp p = true ∧
        ∀ q ∈ l, matchTest fp q = true → q.dir.length ≤ p.dir.length)
    ∧ (l.findSome? (fun p => if matchTest fp p then some p.path else none) = none →
      ∀ q ∈ l, matchTest fp q = false) := by
  induction l with
  | nil =>
    constructor
    · intro path hh
      simp at hh
    · intro _ q hq
      simp at hq
  | cons p l ih =>
    rw [List.pairwise_cons] at hpw
    obtain ⟨hhead, htail⟩ := hpw
    obtain ⟨ih₁, ih₂⟩ := ih htail
    by_cases hm : matchTest fp p
    · constructor
      · intro path hh
        rw [List.findSome?_cons] at hh
        simp only [hm, if_pos] at hh
        obtain rfl : p.path = path := by injection hh
        refine ⟨p, List.mem_cons_self p l, rfl, hm, ?_⟩
        intro q hq _
        rcases List.mem_cons.mp hq with rfl | hq'
        · exact le_refl _
        · exact hhead q hq'
      · intro hh
        rw [List.findSome?_cons] at hh
        simp [hm] at hh
    · have hf : (if matchTest fp p then some p.path else none) = none := by simp [hm]
      constructor
      · intro path hh
        rw [List.findSome?_cons, hf] at hh
        obtain ⟨p', hp', hpath, hpm, hmax⟩ := ih₁ path hh
        refine ⟨p', List.mem_cons_of_mem p hp', hpath, hpm, ?_⟩
        intro q hq hqm
        rcases List.mem_cons.mp hq with rfl | hq'
        · exact absurd hqm (by simp [hm])
        · exact hmax q hq' hqm
      · intro hh q hq
        rw [List.findSome?_cons, hf] at hh
        rcases List.mem_cons.mp hq with rfl | hq'
        · exact Bool.not_eq_true _ ▸ (by simpa using hm)
        · exact ih₂ hh q hq'

theorem direct_affected_fold_none (projects : List Project) (changed_files : List FileInfo)
    (h : ∀ fi ∈ changed_files, best_match projects fi.path = none)
    (acc : List (String × List FileInfo)) :
    changed_files.foldl
      (fun acc fi =>
        match best_match projects fi.path with
        | some bm => addDirect acc bm fi
        | none => acc) acc = acc := by
  induction changed_files generalizing acc with
  | nil => rfl
  | cons fi rest ih =>
    rw [List.foldl_cons, h fi (List.mem_cons_self _ _)]
    exact ih (fun x hx => h x (List.mem_cons_of_mem _ hx)) acc

unseal List.mergeSort List.merge in
/-- C4 counterexample: with projects of dirs `a///` and `a/b`, the file
`a/b/X.txt` is attributed to the project with dir `a///` (raw length 4
sorts first, and it matches through its stripped form `a`), although that
dir is not a prefix of the path at all, while the project with dir `a/b`
is the unique, and longest, segment-boundary prefix owner. -/
theorem c4_counterexample :
    best_match [⟨":a", "a///", []⟩, ⟨":ab", "a/b", []⟩] "a/b/X.txt" = some ":a"
    ∧ dirOwns "a/b/X.txt" "a/b" = true
    ∧ dirOwns "a/b/X.txt" "a///" = false :=
  ⟨rfl, by decide, by decide⟩

/-- C4 amended: provided every project dir carries at most one trailing
slash (so that the raw length order used for candidate ranking agrees with
the stripped matching), the direct-mapping step attributes a changed file
to a project whose dir is a non-empty, non-root, segment-boundary prefix of
the file path of maximal dir length among all such projects (ties broken by
list order); with dirs `a/` and `a/b/`, the file `a/b/X.txt` therefore maps
to `a/b/` and never to `a/`.  A file matching no project dir is skipped and
contributes to no direct impact.  Dirs with repeated trailing slashes break
the correspondence (see the counterexample). -/
theorem c4_longest_dir_attribution (projects : List Project) (fp : String)
    (H : ∀ p ∈ projects, trailingSlashCount p.dir ≤ 1) :
    (∀ path, best_match projects fp = some path →
      ∃ p ∈ projects, p.path = path ∧ dirOwns fp p.dir = true ∧
        ∀ q ∈ projects, dirOwns fp q.dir = true → q.dir.length ≤ p.dir.length)
    ∧ (best_match projects fp = none → ∀ q ∈ projects, dirOwns fp q.dir = false)
    ∧ ∀ (changed_files : List FileInfo),
        (∀ fi ∈ changed_files, best_match projects fi.path = none) →
        direct_affected projects changed_files = [] := by
  have hsorted : (projects.mergeSort fun a b => decide (b.dir.length ≤ a.dir.length)).Pairwise
      (fun a b => b.dir.length ≤ a.dir.length) := by
    have htot : ∀ a b : Project,
        (decide (b.dir.length ≤ a.dir.length) || decide (a.dir.length ≤ b.dir.length)) = true := by
      intro a b
      by_cases hab : b.dir.length ≤ a.dir.length <;> simp [hab] <;> omega
    have := @List.sorted_mergeSort Project (fun a b => decide (b.dir.length ≤ a.dir.length))
      (fun a b c h₁ h₂ => by
        simp only [decide_eq_true_eq] at h₁ h₂ ⊢
        omega)
      htot projects
    exact this.imp fun hx => of_decide_eq_true hx
  obtain ⟨h₁, h₂⟩ := @findSome_longest fp
    (projects.mergeSort fun a b => decide (b.dir.length ≤ a.dir.length)) hsorted
  rw [best_match_eq_findSome]
  refine ⟨?_, ?_, ?_⟩
  · intro path hp
    obtain ⟨p, hpmem, hpath, hpm, hmax⟩ := h₁ path hp
    have hpmem' : p ∈ projects := List.mem_mergeSort.mp hpmem
    refine ⟨p, hpmem', hpath, ?_, ?_⟩
    · rw [← matchTest_eq_dirOwns (H p hpmem')]
      exact hpm
    · intro q hq hqo
      refine hmax q (List.mem_mergeSort.mpr hq) ?_
      rw [matchTest_eq_dirOwns (H q hq)]
      exact hqo
  · intro hn q hq
    rw [← matchTest_eq_dirOwns (H q hq)]
    exact h₂ hn q (List.mem_mergeSort.mpr hq)
  · intro changed_files hnone
    have := direct_affected_fold_none projects changed_files ?_ []
    · exact this
    · intro fi hfi
      exact hnone fi hfi

unseal List.mergeSort List.merge in
/-- Witness for the amended C4, at the example of the claim itself: dirs
`a/` and `a/b/`, file `a/b/X.txt`; additionally the selection indeed
returns the `a/b/` project. -/
theorem c4_witness :
    (∀ p ∈ ([⟨":a", "a/", []⟩, ⟨":ab", "a/b/", []⟩] : List Project),
      trailingSlashCount p.dir ≤ 1)
    ∧ ((∀ path,
          best_match [⟨":a", "a/", []⟩, ⟨":ab", "a/b/", []⟩] "a/b/X.txt" = some path →
          ∃ p ∈ ([⟨":a", "a/", []⟩, ⟨":ab", "a/b/", []⟩] : List Project), p.path = path ∧
            dirOwns "a/b/X.txt" p.dir = true ∧
            ∀ q ∈ ([⟨":a", "a/", []⟩, ⟨":ab", "a/b/", []⟩] : List Project),
              dirOwns "a/b/X.txt" q.dir = true → q.dir.length ≤ p.dir.length)
        ∧ (best_match [⟨":a", "a/", []⟩, ⟨":ab", "a/b/", []⟩] "a/b/X.txt" = none →
            ∀ q ∈ ([⟨":a", "a/", []⟩, ⟨":ab", "a/b/", []⟩] : List Project),
              dirOwns "a/b/X.txt" q.dir = false)
        ∧ ∀ (changed_files : List FileInfo),
            (∀ fi ∈ changed_files,
              best_match [⟨":a", "a/", []⟩, ⟨":ab", "a/b/", []⟩] fi.path = none) →
            direct_affected [⟨":a", "a/", []⟩, ⟨":ab", "a/b/", []⟩] changed_files = [])
    ∧ best_match [⟨":a", "a/", []⟩, ⟨":ab", "a/b/", []⟩] "a/b/X.txt" = some ":ab" :=
  ⟨by decide,
    c4_longest_dir_attribution [⟨":a", "a/", []⟩, ⟨":ab", "a/b/", []⟩] "a/b/X.txt" (by decide),
    rfl⟩

/-- C9: on a local cache hit (snapshot present, marker present and equal to
the fresh configuration hash) the cache phase performs no side effect: the
marker is not rewritten, no remote fetch or upload happens, no
regeneration is invoked, and the report keeps `("hit", "local")`. -/
theorem c9_local_hit_no_side_effects (env : CacheEnv)
    (h₁ : env.graphExists = true) (h₂ : env.hashMarker = some env.currentHash) :
    cache_phase env = .ok ⟨"hit", "local", false, false, false, false⟩ := by
  simp [cache_phase, h₁, h₂]

/-- Witness for C9: local hit with a configured bucket and a remote that
would succeed; still nothing happens. -/
theorem c9_witness :
    (⟨true, some "abc", "abc", some "bucket", true, true⟩ : CacheEnv).graphExists = true
    ∧ (⟨true, some "abc", "abc", some "bucket", true, true⟩ : CacheEnv).hashMarker
        = some (⟨true, some "abc", "abc", some "bucket", true, true⟩ : CacheEnv).currentHash
    ∧ cache_phase ⟨true, some "abc", "abc", some "bucket", true, true⟩
        = .ok ⟨"hit", "local", false, false, false, false⟩ :=
  ⟨rfl, rfl, c9_local_hit_no_side_effects _ rfl rfl⟩

end GradleDiff
